import Mathlib

/-!
Verification of the classification random-forest core of the `ranger` repository
(`src/Tree/TreeClassification.cpp`, `src/Forest/ForestClassification.cpp`).

Numeric data values are embedded as `Rat` (the C++ sources use `double`; the
algorithms perform only comparisons, counting, and exact small-integer sums and
quotients, which `Rat` mirrors faithfully).  Mutation of member state becomes
explicit state passing; the seeded random number generator becomes an explicit
state machine threaded through the functions that use it.
-/

/-- Modelled from the spec: the RNG service (a seeded Mersenne-Twister-class
pseudo-random generator; `utility.h`/`utility.cpp` are not among the sources).
A deterministic state machine over a 64-bit state. -/
structure RNG where
  state : Nat
deriving DecidableEq

/-- Modelled from the spec: one step of the seeded generator, returning a raw
64-bit draw and the successor state. -/
def RNG.next (g : RNG) : Nat × RNG :=
  (g.state % 2 ^ 64, ⟨(g.state * 6364136223846793005 + 1442695040888963407) % 2 ^ 64⟩)

/-- Modelled from the spec: `uniform_int(lo, hi)` of the RNG service; a draw in
`[lo, hi]` obtained by reducing a raw draw. -/
def RNG.uniformInt (g : RNG) (lo hi : Nat) : Nat × RNG :=
  let p := g.next
  (lo + p.1 % (hi + 1 - lo), p.2)

/-- Modelled from the spec: `mostFrequentValue` of the utility collaborators
(not among the sources): given per-value counts, return a value of maximal
count; ties are broken by uniformly choosing among the tied maxima via the
given RNG. -/
def mostFrequentValue (cc : List (Rat × Nat)) (g : RNG) : Rat × RNG :=
  let m := cc.foldl (fun acc p => max acc p.2) 0
  let tied := (cc.filter (fun p => p.2 = m)).map Prod.fst
  if tied.length = 1 then (tied.headD 0, g)
  else
    let p := g.uniformInt 0 (tied.length - 1)
    (tied.getD p.1 0, p.2)

/-- The maximal count used by `mostFrequentValue`. -/
def maxCount (cc : List (Rat × Nat)) : Nat := cc.foldl (fun acc p => max acc p.2) 0

/-- The tied-maxima list inspected by `mostFrequentValue`. -/
def tiedMaxima (cc : List (Rat × Nat)) : List Rat :=
  (cc.filter (fun p => p.2 = maxCount cc)).map Prod.fst

/-- Importance modes relevant to the classification core (`IMP_NONE`,
`IMP_GINI`). -/
inductive ImportanceMode where
  | modeNone : ImportanceMode
  | gini : ImportanceMode
deriving DecidableEq

/-- The read-only per-tree context: the `Data` accessor `get`, the dependent
variable index, the forest-owned `class_values` and `response_classIDs`
tables, and the configuration fields read by `TreeClassification`. -/
structure TreeCtx where
  get : Nat → Nat → Rat
  dependent_varID : Nat
  class_values : List Rat
  response_classIDs : Nat → Nat
  min_node_size : Nat
  importance_mode : ImportanceMode
  no_split_variables : List Nat

/-- The response values of a node's samples: `data->get(sampleID, dependent_varID)`
for each sample of the node. -/
def responseValues (ctx : TreeCtx) (samples : List Nat) : List Rat :=
  samples.map (fun s => ctx.get s ctx.dependent_varID)

/-- The per-value occurrence counts built by `TreeClassification::estimate`
(`class_count[value]++` over the node's samples): each distinct value paired
with its number of occurrences. -/
def classCount (vals : List Rat) : List (Rat × Nat) :=
  vals.dedup.map (fun v => (v, vals.count v))

/-- `TreeClassification::estimate`: count response values over the samples in
the node and return the value with maximum count (ties via the tree RNG). -/
def estimate (ctx : TreeCtx) (samples : List Nat) (g : RNG) : Rat × RNG :=
  mostFrequentValue (classCount (responseValues ctx samples)) g

/-- The purity loop of `TreeClassification::splitNodeInternal`: `true` together
with the shared value when all response values are equal (an empty list is
vacuously pure with value `0`, as in the source). -/
def pureCheck : List Rat → Bool × Rat
  | [] => (true, 0)
  | v :: vs => (vs.all (fun x => decide (x = v)), v)

/-- Sorting insertion step used to model the sorted output of the data
accessor. -/
def insertSorted (x : Rat) : List Rat → List Rat
  | [] => [x]
  | y :: ys => if x ≤ y then x :: y :: ys else y :: insertSorted x ys

/-- Modelled from the spec: `Data::getAllValues` (the `Data` accessor is not
among the sources): the sorted ascending, deduplicated values taken by a
variable over a sample subset. -/
def allValues (ctx : TreeCtx) (samples : List Nat) (varID : Nat) : List Rat :=
  ((samples.map (fun s => ctx.get s varID)).dedup).foldr insertSorted []

/-- Number of samples of the node routed left (`value <= split_value`) by a
candidate threshold, as counted by `TreeClassification::findBestSplit`. -/
def nLeft (ctx : TreeCtx) (samples : List Nat) (varID : Nat) (t : Rat) : Nat :=
  (samples.filter (fun s => decide (ctx.get s varID ≤ t))).length

/-- Number of samples of the node routed right (`value > split_value`). -/
def nRight (ctx : TreeCtx) (samples : List Nat) (varID : Nat) (t : Rat) : Nat :=
  (samples.filter (fun s => decide (t < ctx.get s varID))).length

/-- `class_counts_left[k]` of `TreeClassification::findBestSplit`: samples of
the node routed left whose response class ID is `k`. -/
def classCountLeft (ctx : TreeCtx) (samples : List Nat) (varID : Nat) (t : Rat) (k : Nat) : Nat :=
  (samples.filter (fun s => decide (ctx.get s varID ≤ t) && decide (ctx.response_classIDs s = k))).length

/-- `class_counts_right[k]` of `TreeClassification::findBestSplit`. -/
def classCountRight (ctx : TreeCtx) (samples : List Nat) (varID : Nat) (t : Rat) (k : Nat) : Nat :=
  (samples.filter (fun s => decide (t < ctx.get s varID) && decide (ctx.response_classIDs s = k))).length

/-- `sum_left` of `TreeClassification::findBestSplit`: the sum over classes of
the squared left class counts. -/
def sumLeft (ctx : TreeCtx) (samples : List Nat) (varID : Nat) (t : Rat) : Nat :=
  ∑ k ∈ Finset.range ctx.class_values.length, (classCountLeft ctx samples varID t k) ^ 2

/-- `sum_right` of `TreeClassification::findBestSplit`. -/
def sumRight (ctx : TreeCtx) (samples : List Nat) (varID : Nat) (t : Rat) : Nat :=
  ∑ k ∈ Finset.range ctx.class_values.length, (classCountRight ctx samples varID t k) ^ 2

/-- The decrease of impurity computed by `TreeClassification::findBestSplit`
for a candidate `(variable, threshold)` pair:
`sum_left / n_left + sum_right / n_right`. -/
def candScore (ctx : TreeCtx) (samples : List Nat) (c : Nat × Rat) : Rat :=
  (sumLeft ctx samples c.1 c.2 : Rat) / (nLeft ctx samples c.1 c.2 : Rat) +
    (sumRight ctx samples c.1 c.2 : Rat) / (nRight ctx samples c.1 c.2 : Rat)

/-- A candidate is valid when neither child is empty (the `continue` guard of
`TreeClassification::findBestSplit`). -/
def validCand (ctx : TreeCtx) (samples : List Nat) (c : Nat × Rat) : Prop :=
  nLeft ctx samples c.1 c.2 ≠ 0 ∧ nRight ctx samples c.1 c.2 ≠ 0

instance (ctx : TreeCtx) (samples : List Nat) (c : Nat × Rat) :
    Decidable (validCand ctx samples c) := by
  unfold validCand; infer_instance

/-- The candidate `(variable, threshold)` pairs enumerated by the two nested
loops of `TreeClassification::findBestSplit`: for each candidate variable in
order, skip it when it has fewer than two distinct values, and otherwise pair
it with every possible split value in order. -/
def candidatePairs (ctx : TreeCtx) (samples : List Nat) (vars : List Nat) : List (Nat × Rat) :=
  vars.flatMap (fun v =>
    if (allValues ctx samples v).length < 2 then []
    else (allValues ctx samples v).map (fun t => (v, t)))

/-- The running best split of `TreeClassification::findBestSplit`
(`best_decrease`, `best_varID`, `best_value`). -/
structure BestSplit where
  decrease : Rat
  varID : Nat
  value : Rat
deriving DecidableEq

/-- One iteration of the inner loop of `TreeClassification::findBestSplit`:
skip the candidate when a child is empty, and replace the running best exactly
when the candidate's decrease is strictly greater. -/
def stepSplit (ctx : TreeCtx) (samples : List Nat) (b : BestSplit) (c : Nat × Rat) : BestSplit :=
  if nLeft ctx samples c.1 c.2 = 0 ∨ nRight ctx samples c.1 c.2 = 0 then b
  else if b.decrease < candScore ctx samples c then
    ⟨candScore ctx samples c, c.1, c.2⟩
  else b

/-- `TreeClassification::findBestSplit`: fold the candidate pairs through the
strict-improvement step, starting from `best_decrease = -1`,
`best_varID = 0`, `best_value = 0`. -/
def findBestSplit (ctx : TreeCtx) (samples : List Nat) (vars : List Nat) : BestSplit :=
  (candidatePairs ctx samples vars).foldl (stepSplit ctx samples) ⟨-1, 0, 0⟩

/-- `class_counts[k]` of `TreeClassification::addGiniImportance`: the class
counts over the parent node's samples. -/
def classCountNode (ctx : TreeCtx) (samples : List Nat) (k : Nat) : Nat :=
  (samples.filter (fun s => decide (ctx.response_classIDs s = k))).length

/-- `sum_node` of `TreeClassification::addGiniImportance`. -/
def sumNode (ctx : TreeCtx) (samples : List Nat) : Nat :=
  ∑ k ∈ Finset.range ctx.class_values.length, (classCountNode ctx samples k) ^ 2

/-- `TreeClassification::addGiniImportance`: add
`decrease - sum_node / |samples|` to the importance entry whose index is the
split variable decremented once for every no-split variable `skip` with
`varID >= skip`. -/
def tempVarID (ctx : TreeCtx) (varID : Nat) : Nat :=
  ctx.no_split_variables.foldl (fun t skip => if skip ≤ varID then t - 1 else t) varID

/-- Body of `TreeClassification::addGiniImportance`:
`variable_importance[tempvarID] += decrease - sum_node / |samples|`. -/
def addGiniImportance (ctx : TreeCtx) (samples : List Nat) (varID : Nat) (decrease : Rat)
    (importance : List Rat) : List Rat :=
  importance.set (tempVarID ctx varID)
    (importance.getD (tempVarID ctx varID) 0 +
      (decrease - (sumNode ctx samples : Rat) / (samples.length : Rat)))

/-- Result of `TreeClassification::splitNodeInternal` on one node: either the
node is finalized as a leaf with a stored value (`return true` after setting
`split_values[nodeID]`), or a split is materialized
(`split_varIDs[nodeID]`, `split_values[nodeID]` stored, `return false`); the
tree RNG state is threaded through. -/
inductive SplitResult where
  | leaf (value : Rat) (g : RNG) : SplitResult
  | split (varID : Nat) (value : Rat) (g : RNG) : SplitResult
deriving DecidableEq

/-- `TreeClassification::splitNodeInternal` (with the Gini-importance update
performed by `findBestSplit` made explicit on the importance vector): stop
with an estimated leaf when the node size is at most `min_node_size`; stop
with the shared value when the node is pure; otherwise run `findBestSplit`
and either stop with an estimated leaf (no good split) or materialize the
best split, adding its Gini importance when the mode is `IMP_GINI`. -/
def splitNodeInternal (ctx : TreeCtx) (samples : List Nat) (vars : List Nat) (g : RNG)
    (importance : List Rat) : SplitResult × List Rat :=
  if samples.length ≤ ctx.min_node_size then
    (SplitResult.leaf (estimate ctx samples g).1 (estimate ctx samples g).2, importance)
  else if (pureCheck (responseValues ctx samples)).1 then
    (SplitResult.leaf (pureCheck (responseValues ctx samples)).2 g, importance)
  else if (findBestSplit ctx samples vars).decrease < 0 then
    (SplitResult.leaf (estimate ctx samples g).1 (estimate ctx samples g).2, importance)
  else
    (SplitResult.split (findBestSplit ctx samples vars).varID
        (findBestSplit ctx samples vars).value g,
      if ctx.importance_mode = ImportanceMode.gini then
        addGiniImportance ctx samples (findBestSplit ctx samples vars).varID
          (findBestSplit ctx samples vars).decrease importance
      else importance)

/-- A concrete data accessor for witnesses: variable 0 is the feature,
variable 1 the response, variable 2 a constant column. -/
def exGet : Nat → Nat → Rat :=
  fun s v => if v = 0 then ([1, 2, 3, 4, 5, 6] : List Rat).getD s 0
             else if v = 1 then ([0, 0, 0, 1, 1, 1] : List Rat).getD s 0
             else 9

/-- A concrete tree context for witnesses. -/
def exCtx : TreeCtx :=
  { get := exGet
    dependent_varID := 1
    class_values := [0, 1]
    response_classIDs := fun s => ([0, 0, 0, 1, 1, 1] : List Nat).getD s 0
    min_node_size := 1
    importance_mode := ImportanceMode.gini
    no_split_variables := [1] }

/-- The arrays of one stored tree read back by
`ForestClassification::loadFromFileInternal` (`child_nodeIDs`,
`split_varIDs`, `split_values`). -/
structure SavedTree where
  child_nodeIDs : List (List Nat)
  split_varIDs : List Nat
  split_values : List Rat
deriving DecidableEq

/-- The tree-type tag of a classification forest (`TREE_CLASSIFICATION`,
value `1` per the external-interface layout). -/
def TREE_CLASSIFICATION : Nat := 1

/-- The content of a stored forest file as read by
`ForestClassification::loadFromFileInternal`: the saved variable count, the
tree-type tag, the class values, and the per-tree arrays. -/
structure SavedForest where
  num_variables_saved : Nat
  treetype : Nat
  class_values : List Rat
  trees : List SavedTree
deriving DecidableEq

/-- The `--varID` of `loadFromFileInternal` on a `size_t` value: decrement
modulo `2^64`. -/
def decOne (v : Nat) : Nat := (v + (2 ^ 64 - 1)) % 2 ^ 64

/-- The reconciliation applied to one stored tree by
`ForestClassification::loadFromFileInternal`: when the saved variable count
strictly exceeds the current one, decrement every split-variable ID that is
at least the dependent variable index; otherwise leave the tree unchanged. -/
def reconcileTree (num_variables_saved num_variables dependent_varID : Nat)
    (t : SavedTree) : SavedTree :=
  if num_variables_saved > num_variables then
    { t with split_varIDs :=
        t.split_varIDs.map (fun v => if v ≥ dependent_varID then decOne v else v) }
  else t

/-- `ForestClassification::loadFromFileInternal`: reject when the stored
tree-type tag is not the classification tag; otherwise accept the stored
class values and the stored trees after reconciliation. -/
def loadFromFileInternal (sf : SavedForest) (num_variables dependent_varID : Nat) :
    Except String (List Rat × List SavedTree) :=
  if sf.treetype ≠ TREE_CLASSIFICATION then
    Except.error "Wrong treetype. Loaded file is not a classification forest."
  else
    Except.ok (sf.class_values,
      sf.trees.map (reconcileTree sf.num_variables_saved num_variables dependent_varID))

/-- A concrete saved forest for witnesses: three saved variables, tag `1`,
one tree whose split variables are `[2, 0]`. -/
def sfEx : SavedForest :=
  { num_variables_saved := 3
    treetype := 1
    class_values := [0, 1]
    trees := [{ child_nodeIDs := [[0, 0], [0, 0]], split_varIDs := [2, 0],
                split_values := [5, 7] }] }

/-- Per-tree OOB bookkeeping as read by
`ForestClassification::computePredictionErrorInternal`: the tree's
`oob_sampleIDs` and the tree's predictions aligned with them
(`predictions[0][sample_idx]`). -/
structure TreeOOB where
  oob : List Nat
  preds : List Rat
deriving DecidableEq

/-- The evaluation input of `computePredictionErrorInternal`: the number of
samples, the true response of each sample (`data->get(i, dependent_varID)`),
and the per-tree OOB predictions. -/
structure EvalInput where
  num_samples : Nat
  real : Nat → Rat
  trees : List TreeOOB

/-- The votes accumulated for sample `i` by the class-counting loop of
`computePredictionErrorInternal`: for each tree in order and each OOB
position in order, the tree's prediction at that position whenever the OOB
sample ID there equals `i`. -/
def oobVotes (trees : List TreeOOB) (i : Nat) : List Rat :=
  trees.flatMap (fun t => ((t.oob.zip t.preds).filter (fun p => p.1 = i)).map Prod.snd)

/-- One iteration of the majority-vote loop of
`computePredictionErrorInternal`: append the majority OOB vote of the next
sample (ties via the forest RNG), or the `NAN` sentinel (`none`) when the
sample has no OOB votes. -/
def oobStep (inp : EvalInput) (acc : List (Option Rat) × RNG) (i : Nat) :
    List (Option Rat) × RNG :=
  if oobVotes inp.trees i = [] then (acc.1 ++ [none], acc.2)
  else
    (acc.1 ++ [some (mostFrequentValue (classCount (oobVotes inp.trees i)) acc.2).1],
      (mostFrequentValue (classCount (oobVotes inp.trees i)) acc.2).2)

/-- The majority-vote pass of `computePredictionErrorInternal`: the per-sample
predictions for samples `0, ..., num_samples - 1`, with the forest RNG
threaded through the tie-breaks. -/
def oobPredictions (inp : EvalInput) (g : RNG) : List (Option Rat) × RNG :=
  (List.range inp.num_samples).foldl (oobStep inp) ([], g)

/-- The comparison loop of `computePredictionErrorInternal`: the number of
indices whose prediction is defined (not the `NAN` sentinel) and differs from
the true response. -/
def numMissclassifications (inp : EvalInput) (preds : List (Option Rat)) : Nat :=
  (List.range preds.length).countP (fun i =>
    match preds.getD i none with
    | some v => decide (v ≠ inp.real i)
    | none => false)

/-- The confusion table built by `computePredictionErrorInternal`
(`classification_table[(real, predicted)]++` over defined predictions). -/
def classificationTable (inp : EvalInput) (preds : List (Option Rat)) : Rat × Rat → Nat :=
  fun rp => (List.range preds.length).countP (fun i =>
    decide (preds.getD i none = some rp.2) && decide (inp.real i = rp.1))

/-- The outputs of `computePredictionErrorInternal`: the per-sample
predictions, the overall prediction error, the confusion table, and the final
forest RNG state. -/
structure OOBResult where
  predictions : List (Option Rat)
  error : Rat
  confusion : Rat × Rat → Nat
  g : RNG

/-- `ForestClassification::computePredictionErrorInternal`: accumulate OOB
votes per sample, take per-sample majority votes (`NAN` when a sample has no
votes), count misclassifications and tally the confusion table over defined
predictions, and divide the misclassification count by `predictions.size()`. -/
def computePredictionErrorInternal (inp : EvalInput) (g : RNG) : OOBResult :=
  { predictions := (oobPredictions inp g).1
    error := (numMissclassifications inp (oobPredictions inp g).1 : Rat) /
      ((oobPredictions inp g).1.length : Rat)
    confusion := classificationTable inp (oobPredictions inp g).1
    g := (oobPredictions inp g).2 }

/-- Following the spec's words (for comparison with the code): the number of
defined samples, i.e. samples with at least one OOB vote. -/
def specNumDefined (inp : EvalInput) : Nat :=
  (List.range inp.num_samples).countP (fun i => decide (oobVotes inp.trees i ≠ []))

/-- Following the spec's words (for comparison with the code): the number of
misclassified defined samples. -/
def specNumMisclassifiedDefined (inp : EvalInput) (preds : List (Option Rat)) : Nat :=
  (List.range inp.num_samples).countP (fun i =>
    decide (oobVotes inp.trees i ≠ []) &&
    decide (preds.getD i none ≠ some (inp.real i)))

/-- A concrete evaluation input for the C1 counterexample: two samples, one
tree; sample 0 has one (wrong) OOB vote, sample 1 has none. -/
def exEval : EvalInput :=
  { num_samples := 2
    real := fun _ => 7
    trees := [{ oob := [0], preds := [5] }] }

/-- The dataset as seen by the forest grower: sample and variable counts and
the read-only accessor. -/
structure DataM where
  num_samples : Nat
  num_variables : Nat
  get : Nat → Nat → Rat

/-- The configuration fields recognized by the classification core. -/
structure Config where
  num_trees : Nat
  mtry : Nat
  min_node_size : Nat
  importance_mode : ImportanceMode
  no_split_variables : List Nat
  dependent_varID : Nat

/-- `ForestClassification::initInternal`: the class values collected over the
samples in first-seen order. -/
def computeClassValues (d : DataM) (dep : Nat) : List Rat :=
  (List.range d.num_samples).foldl
    (fun acc i => if d.get i dep ∈ acc then acc else acc ++ [d.get i dep]) []

/-- `ForestClassification::initInternal`: the response class ID of each
sample, its position in the class-value table. -/
def computeResponseClassIDs (d : DataM) (dep : Nat) (cvs : List Rat) : Nat → Nat :=
  fun i => cvs.indexOf (d.get i dep)

/-- `ForestClassification::initInternal`: when `mtry` is unset, the floored
square root of the number of independent variables (at least one). -/
def effectiveMtry (d : DataM) (cfg : Config) : Nat :=
  if cfg.mtry = 0 then max 1 (Nat.sqrt (d.num_variables - 1)) else cfg.mtry

/-- `ForestClassification::initInternal`: when `min_node_size` is unset, the
classification default `1`. -/
def effectiveMinNodeSize (cfg : Config) : Nat :=
  if cfg.min_node_size = 0 then 1 else cfg.min_node_size

/-- Modelled from the spec: `sample_with_replacement` of the RNG service (the
bootstrap; the sampling utilities are not among the sources): `n` draws from
`[0, N)` with the RNG threaded through. -/
def sampleWithReplacement (g : RNG) (n N : Nat) : List Nat × RNG :=
  (List.range n).foldl
    (fun acc _ => (acc.1 ++ [(acc.2.uniformInt 0 (N - 1)).1], (acc.2.uniformInt 0 (N - 1)).2))
    ([], g)

/-- The OOB set of a bootstrap sample: the sample IDs not drawn. -/
def oobOf (N : Nat) (boot : List Nat) : List Nat :=
  (List.range N).filter (fun i => decide (i ∉ boot))

/-- Modelled from the spec: `sample_without_replacement` of the RNG service
(not among the sources): draw up to `k` distinct elements of the pool,
removing each drawn element. -/
def drawWithoutReplacement (g : RNG) (pool : List Nat) : Nat → List Nat × RNG
  | 0 => ([], g)
  | k + 1 =>
    if pool.isEmpty then ([], g)
    else
      ((pool.getD (g.uniformInt 0 (pool.length - 1)).1 0 ::
          (drawWithoutReplacement (g.uniformInt 0 (pool.length - 1)).2
            (pool.eraseIdx (g.uniformInt 0 (pool.length - 1)).1) k).1),
        (drawWithoutReplacement (g.uniformInt 0 (pool.length - 1)).2
          (pool.eraseIdx (g.uniformInt 0 (pool.length - 1)).1) k).2)

/-- The allowed split variables `[0, P) \ ({dependent} ∪ no_split_variables)`. -/
def allowedVars (d : DataM) (cfg : Config) : List Nat :=
  (List.range d.num_variables).filter
    (fun v => decide (v ≠ cfg.dependent_varID) && decide (v ∉ cfg.no_split_variables))

/-- A grown classification tree: leaves store class values, inner nodes a
split variable and threshold. -/
inductive GTree where
  | leaf (value : Rat) : GTree
  | node (varID : Nat) (value : Rat) (l r : GTree) : GTree
deriving DecidableEq

/-- Modelled from the spec: the recursive growth of `Tree::grow` (the generic
tree driver is not among the sources): draw `mtry` candidate variables, run
`splitNodeInternal`, and either finalize a leaf or split the node's samples
by `value ≤ threshold` and recurse; the fuel argument bounds the depth (fuel
exhaustion estimates a leaf, and is never reached starting from
`|samples| + 1` because every materialized split has non-empty children). -/
def growNode (ctx : TreeCtx) (d : DataM) (cfg : Config) :
    Nat → List Nat → RNG → List Rat → GTree × RNG × List Rat
  | 0, samples, g, imp =>
      (GTree.leaf (estimate ctx samples g).1, (estimate ctx samples g).2, imp)
  | fuel + 1, samples, g, imp =>
      let vs := drawWithoutReplacement g (allowedVars d cfg) (effectiveMtry d cfg)
      match splitNodeInternal ctx samples vs.1 vs.2 imp with
      | (SplitResult.leaf v g', imp') => (GTree.leaf v, g', imp')
      | (SplitResult.split varID value g', imp') =>
          let left := growNode ctx d cfg fuel
            (samples.filter (fun s => decide (ctx.get s varID ≤ value))) g' imp'
          let right := growNode ctx d cfg fuel
            (samples.filter (fun s => decide (¬ ctx.get s varID ≤ value))) left.2.1 left.2.2
          (GTree.node varID value left.1 right.1, right.2.1, right.2.2)

/-- Growth of one tree from its bootstrap sample. -/
def growTree (ctx : TreeCtx) (d : DataM) (cfg : Config) (samples : List Nat) (g : RNG)
    (imp : List Rat) : GTree × RNG × List Rat :=
  growNode ctx d cfg (samples.length + 1) samples g imp

/-- Prediction of one row by descent: while internal, go left when the row's
value at the split variable is at most the threshold, else right; return the
leaf's stored class value. -/
def predictTree (d : DataM) : GTree → Nat → Rat
  | GTree.leaf v, _ => v
  | GTree.node varID value l r, row =>
      if d.get row varID ≤ value then predictTree d l row else predictTree d r row

/-- `ForestClassification::predictInternal`: for each sample, the majority
vote over the per-tree predictions, ties broken via the forest RNG. -/
def predictInternal (treePreds : List (List Rat)) (num_prediction_samples : Nat) (g : RNG) :
    List Rat × RNG :=
  (List.range num_prediction_samples).foldl
    (fun acc i =>
      (acc.1 ++ [(mostFrequentValue (classCount (treePreds.map (fun tp => tp.getD i 0))) acc.2).1],
        (mostFrequentValue (classCount (treePreds.map (fun tp => tp.getD i 0))) acc.2).2))
    ([], g)

/-- Every artifact derived from one run of forest growth and evaluation. -/
structure ForestResult where
  trees : List GTree
  oobs : List (List Nat)
  importance : List Rat
  oobPreds : List (Option Rat)
  confusion : Rat × Rat → Nat
  error : Rat
  majorityPreds : List Rat

/-- Modelled from the spec: the whole training-and-evaluation pipeline (the
generic `Forest` driver is not among the sources): derive the class table,
grow `num_trees` trees, each from a bootstrap drawn with a per-tree RNG
reproducibly derived from the forest seed and the tree index (`seed ⊕ t`),
evaluate the OOB predictions, the confusion table and the overall error with
the forest RNG, and take the majority in-sample predictions. -/
def growForest (d : DataM) (seed : Nat) (cfg : Config) : ForestResult :=
  let cvs := computeClassValues d cfg.dependent_varID
  let ctx : TreeCtx :=
    ⟨d.get, cfg.dependent_varID, cvs, computeResponseClassIDs d cfg.dependent_varID cvs,
      effectiveMinNodeSize cfg, cfg.importance_mode, cfg.no_split_variables⟩
  let grown := (List.range cfg.num_trees).foldl
    (fun acc t =>
      (acc.1 ++ [((growTree ctx d cfg (sampleWithReplacement ⟨Nat.xor seed t⟩
            d.num_samples d.num_samples).1
          (sampleWithReplacement ⟨Nat.xor seed t⟩ d.num_samples d.num_samples).2 acc.2).1,
        oobOf d.num_samples (sampleWithReplacement ⟨Nat.xor seed t⟩
          d.num_samples d.num_samples).1)],
        (growTree ctx d cfg (sampleWithReplacement ⟨Nat.xor seed t⟩
            d.num_samples d.num_samples).1
          (sampleWithReplacement ⟨Nat.xor seed t⟩ d.num_samples d.num_samples).2 acc.2).2.2))
    (([] : List (GTree × List Nat)),
      List.replicate (d.num_variables - cfg.no_split_variables.length) (0 : Rat))
  let evalInp : EvalInput :=
    ⟨d.num_samples, fun i => d.get i cfg.dependent_varID,
      grown.1.map (fun p => ⟨p.2, p.2.map (predictTree d p.1)⟩)⟩
  let oobRes := computePredictionErrorInternal evalInp ⟨seed⟩
  ⟨grown.1.map Prod.fst, grown.1.map Prod.snd, grown.2,
    oobRes.predictions, oobRes.confusion, oobRes.error,
    (predictInternal
      (grown.1.map (fun p => (List.range d.num_samples).map (predictTree d p.1)))
      d.num_samples oobRes.g).1⟩

/-- A concrete dataset for the determinism witness. -/
def exData : DataM := ⟨6, 2, exGet⟩

/-- A concrete configuration for the determinism witness. -/
def exCfg : Config := ⟨1, 0, 0, ImportanceMode.gini, [1], 1⟩

/-! ### Helper lemmas about `mostFrequentValue` and `estimate` -/

theorem foldl_max_le (l : List Nat) (a : Nat) : a ≤ l.foldl max a := by
  induction l generalizing a with
  | nil => exact Nat.le_refl a
  | cons x l ih => exact Nat.le_trans (Nat.le_max_left a x) (ih (max a x))

theorem foldl_max_ge_mem (l : List Nat) (a : Nat) : ∀ x ∈ l, x ≤ l.foldl max a := by
  induction l generalizing a with
  | nil => intro x hx; cases hx
  | cons y l ih =>
    intro x hx
    rcases List.mem_cons.mp hx with h | h
    · subst h
      exact Nat.le_trans (Nat.le_max_right a x) (foldl_max_le l (max a x))
    · exact ih (max a y) x h

theorem foldl_max_mem (l : List Nat) (a : Nat) : l.foldl max a = a ∨ l.foldl max a ∈ l := by
  induction l generalizing a with
  | nil => exact Or.inl rfl
  | cons x l ih =>
    rcases ih (max a x) with h | h
    · rcases max_choice a x with hm | hm
      · exact Or.inl (by simpa [hm] using h)
      · exact Or.inr (by simp only [List.foldl_cons]; rw [h, hm]; simp)
    · exact Or.inr (List.mem_cons_of_mem x h)

theorem maxCount_attained (cc : List (Rat × Nat)) (h : cc ≠ []) :
    ∃ p ∈ cc, p.2 = maxCount cc := by
  have hmem : maxCount cc = 0 ∨ maxCount cc ∈ cc.map Prod.snd := by
    have := foldl_max_mem (cc.map Prod.snd) 0
    have heq : (cc.map Prod.snd).foldl max 0 = maxCount cc := by
      simp [maxCount, List.foldl_map]
    rw [heq] at this
    exact this
  rcases hmem with h0 | hmem
  · rcases cc with _ | ⟨p, cc⟩
    · exact absurd rfl h
    · refine ⟨p, List.mem_cons_self p cc, ?_⟩
      have hle : p.2 ≤ maxCount (p :: cc) := by
        have := foldl_max_ge_mem ((p :: cc).map Prod.snd) 0 p.2 (by simp)
        simpa [maxCount, List.foldl_map] using this
      rw [h0] at hle ⊢
      exact Nat.le_antisymm hle (Nat.zero_le _)
  · rcases List.mem_map.mp hmem with ⟨p, hp, hp2⟩
    exact ⟨p, hp, hp2⟩

theorem maxCount_ge (cc : List (Rat × Nat)) : ∀ p ∈ cc, p.2 ≤ maxCount cc := by
  intro p hp
  have := foldl_max_ge_mem (cc.map Prod.snd) 0 p.2 (List.mem_map_of_mem Prod.snd hp)
  simpa [maxCount, List.foldl_map] using this

theorem mostFrequentValue_eq (cc : List (Rat × Nat)) (g : RNG) :
    mostFrequentValue cc g =
      if (tiedMaxima cc).length = 1 then ((tiedMaxima cc).headD 0, g)
      else
        ((tiedMaxima cc).getD (g.uniformInt 0 ((tiedMaxima cc).length - 1)).1 0,
          (g.uniformInt 0 ((tiedMaxima cc).length - 1)).2) := rfl

theorem getD_mem_of_lt {α : Type} (l : List α) (i : Nat) (d : α) (h : i < l.length) :
    l.getD i d ∈ l := by
  rw [List.getD_eq_getElem?_getD, List.getElem?_eq_getElem h]
  simp [List.getElem_mem h]

theorem uniformInt_lt (g : RNG) (n : Nat) (h : 0 < n) : (g.uniformInt 0 (n - 1)).1 < n := by
  unfold RNG.uniformInt
  simp only
  have : (g.next.1) % (n - 1 + 1 - 0) < n - 1 + 1 := Nat.mod_lt _ (by omega)
  omega

/-- The value returned by `mostFrequentValue` is one of the tied maxima:
it appears among the pairs and its count is the maximal count. -/
theorem mostFrequentValue_spec (cc : List (Rat × Nat)) (g : RNG) (h : cc ≠ []) :
    ∃ p ∈ cc, p.1 = (mostFrequentValue cc g).1 ∧ p.2 = maxCount cc := by
  have htied : ∃ q, q ∈ cc.filter (fun p => p.2 = maxCount cc) := by
    rcases maxCount_attained cc h with ⟨p, hp, hp2⟩
    exact ⟨p, List.mem_filter.mpr ⟨hp, by simp [hp2]⟩⟩
  rcases htied with ⟨q, hq⟩
  have htne : tiedMaxima cc ≠ [] := by
    intro habs
    unfold tiedMaxima at habs
    have hnil := List.map_eq_nil_iff.mp habs
    rw [hnil] at hq; cases hq
  have hres : (mostFrequentValue cc g).1 ∈ tiedMaxima cc := by
    rw [mostFrequentValue_eq]
    by_cases hlen : (tiedMaxima cc).length = 1
    · simp only [hlen, if_pos]
      rcases List.length_eq_one.mp hlen with ⟨x, hx⟩
      simp [hx]
    · simp only [hlen, if_neg, ite_false]
      exact getD_mem_of_lt _ _ _
        (uniformInt_lt g (tiedMaxima cc).length (List.length_pos.mpr htne))
  unfold tiedMaxima at hres
  rcases List.mem_map.mp hres with ⟨p, hpf, hp1⟩
  rcases List.mem_filter.mp hpf with ⟨hpcc, hp2⟩
  exact ⟨p, hpcc, hp1, by simpa using hp2⟩

theorem count_le_maxCount_classCount (vals : List Rat) (c : Rat) :
    vals.count c ≤ maxCount (classCount vals) := by
  by_cases hc : c ∈ vals
  · have : (c, vals.count c) ∈ classCount vals := by
      unfold classCount
      exact List.mem_map.mpr ⟨c, List.mem_dedup.mpr hc, rfl⟩
    exact maxCount_ge _ _ this
  · have : vals.count c = 0 := List.count_eq_zero.mpr hc
    rw [this]; exact Nat.zero_le _

/-- Majority property of `estimate`: on a non-empty node the returned value
occurs among the node's response values and has maximal occurrence count. -/
theorem estimate_majority (ctx : TreeCtx) (samples : List Nat) (g : RNG)
    (h : samples ≠ []) :
    (estimate ctx samples g).1 ∈ responseValues ctx samples ∧
      ∀ c, (responseValues ctx samples).count c ≤
        (responseValues ctx samples).count (estimate ctx samples g).1 := by
  set vals := responseValues ctx samples with hvals
  have hvne : vals ≠ [] := by
    rw [hvals]
    unfold responseValues
    simp [h]
  have hccne : classCount vals ≠ [] := by
    unfold classCount
    intro habs
    rcases List.map_eq_nil_iff.mp habs with hnil
    rcases List.exists_mem_of_ne_nil vals hvne with ⟨x, hx⟩
    have := List.mem_dedup.mpr hx
    rw [hnil] at this; cases this
  rcases mostFrequentValue_spec (classCount vals) g hccne with ⟨p, hpcc, hp1, hp2⟩
  have hform : ∃ v ∈ vals.dedup, p = (v, vals.count v) := by
    unfold classCount at hpcc
    rcases List.mem_map.mp hpcc with ⟨v, hv, hveq⟩
    exact ⟨v, hv, hveq.symm⟩
  rcases hform with ⟨v, hvdedup, hpv⟩
  have hv1 : p.1 = v := by rw [hpv]
  have hv2 : p.2 = vals.count v := by rw [hpv]
  have hres : (estimate ctx samples g).1 = v := by
    unfold estimate
    rw [← hvals, ← hp1, hv1]
  constructor
  · rw [hres]; exact List.mem_dedup.mp hvdedup
  · intro c
    rw [hres]
    have : vals.count v = maxCount (classCount vals) := by rw [← hv2, hp2]
    rw [this]
    exact count_le_maxCount_classCount vals c

/-- On a constant non-empty value list, `estimate` returns the constant without
consuming the RNG. -/
theorem estimate_const (ctx : TreeCtx) (samples : List Nat) (g : RNG) (c : Rat)
    (h : samples ≠ []) (hc : ∀ s ∈ samples, ctx.get s ctx.dependent_varID = c) :
    estimate ctx samples g = (c, g) := by
  set vals := responseValues ctx samples with hvals
  have hall : ∀ x ∈ vals, x = c := by
    intro x hx
    rw [hvals] at hx
    unfold responseValues at hx
    rcases List.mem_map.mp hx with ⟨s, hs, hxs⟩
    rw [← hxs]; exact hc s hs
  have hvne : vals ≠ [] := by
    rw [hvals]; unfold responseValues; simp [h]
  have hdedup : vals.dedup = [c] := by
    have hnodup := List.nodup_dedup vals
    have hmem : c ∈ vals.dedup := by
      rcases List.exists_mem_of_ne_nil vals hvne with ⟨x, hx⟩
      have := hall x hx
      rw [this] at hx
      exact List.mem_dedup.mpr hx
    have hsub : ∀ x ∈ vals.dedup, x = c := fun x hx => hall x (List.mem_dedup.mp hx)
    rcases hde : vals.dedup with _ | ⟨y, ys⟩
    · rw [hde] at hmem; cases hmem
    · have hy : y = c := hsub y (by rw [hde]; exact List.mem_cons_self y ys)
      have hys : ys = [] := by
        rcases hys : ys with _ | ⟨z, zs⟩
        · rfl
        · exfalso
          have hz : z = c := hsub z (by rw [hde, hys]; simp)
          rw [hde, hys] at hnodup
          have : y ≠ z := by
            have := List.nodup_cons.mp hnodup
            intro he
            exact this.1 (by rw [he]; simp)
          exact this (by rw [hy, hz])
      rw [hy, hys]
  have hcc : classCount vals = [(c, vals.count c)] := by
    unfold classCount
    rw [hdedup]
    rfl
  unfold estimate
  rw [← hvals, hcc]
  unfold mostFrequentValue
  simp

/-! ### Helper lemmas about `findBestSplit` -/

theorem candScore_nonneg (ctx : TreeCtx) (samples : List Nat) (c : Nat × Rat) :
    0 ≤ candScore ctx samples c := by
  unfold candScore
  have h1 : (0 : Rat) ≤ (sumLeft ctx samples c.1 c.2 : Rat) / (nLeft ctx samples c.1 c.2 : Rat) :=
    div_nonneg (Nat.cast_nonneg _) (Nat.cast_nonneg _)
  have h2 : (0 : Rat) ≤ (sumRight ctx samples c.1 c.2 : Rat) / (nRight ctx samples c.1 c.2 : Rat) :=
    div_nonneg (Nat.cast_nonneg _) (Nat.cast_nonneg _)
  exact add_nonneg h1 h2

/-- Characterization of the strict-improvement fold of `findBestSplit`: the
result is either the initial best (when no valid candidate strictly improves
it) or the first valid candidate attaining the maximal score. -/
theorem foldl_stepSplit_char (ctx : TreeCtx) (samples : List Nat) :
    ∀ (l : List (Nat × Rat)) (b : BestSplit),
      (l.foldl (stepSplit ctx samples) b = b ∧
        ∀ c ∈ l, validCand ctx samples c → candScore ctx samples c ≤ b.decrease) ∨
      (∃ l1 c l2, l = l1 ++ c :: l2 ∧ validCand ctx samples c ∧
        l.foldl (stepSplit ctx samples) b = ⟨candScore ctx samples c, c.1, c.2⟩ ∧
        b.decrease < candScore ctx samples c ∧
        (∀ c' ∈ l1, validCand ctx samples c' →
          candScore ctx samples c' < candScore ctx samples c) ∧
        (∀ c' ∈ l2, validCand ctx samples c' →
          candScore ctx samples c' ≤ candScore ctx samples c)) := by
  intro l
  induction l with
  | nil =>
    intro b
    exact Or.inl ⟨rfl, by intro c hc; cases hc⟩
  | cons a l ih =>
    intro b
    by_cases hval : validCand ctx samples a
    · by_cases hgt : b.decrease < candScore ctx samples a
      · have hstep : stepSplit ctx samples b a = ⟨candScore ctx samples a, a.1, a.2⟩ := by
          unfold stepSplit
          rcases hval with ⟨h1, h2⟩
          rw [if_neg (fun hor => hor.elim (fun hh => h1 hh) (fun hh => h2 hh)), if_pos hgt]
        rw [List.foldl_cons, hstep]
        rcases ih ⟨candScore ctx samples a, a.1, a.2⟩ with
          ⟨heq, hall⟩ | ⟨l1, c, l2, hsplit, hv, heq, hlt, hl1, hl2⟩
        · right
          refine ⟨[], a, l, rfl, hval, ?_, hgt, ?_, ?_⟩
          · rw [heq]
          · intro c' hc'; cases hc'
          · intro c' hc' hv'
            exact hall c' hc' hv'
        · right
          refine ⟨a :: l1, c, l2, by rw [hsplit, List.cons_append], hv, heq, ?_, ?_, hl2⟩
          · exact lt_trans hgt hlt
          · intro c' hc' hv'
            rcases List.mem_cons.mp hc' with hh | hh
            · subst hh; exact hlt
            · exact hl1 c' hh hv'
      · have hstep : stepSplit ctx samples b a = b := by
          unfold stepSplit
          rcases hval with ⟨h1, h2⟩
          rw [if_neg (fun hor => hor.elim (fun hh => h1 hh) (fun hh => h2 hh)), if_neg hgt]
        rw [List.foldl_cons, hstep]
        rcases ih b with ⟨heq, hall⟩ | ⟨l1, c, l2, hsplit, hv, heq, hlt, hl1, hl2⟩
        · left
          refine ⟨heq, ?_⟩
          intro c hc hvc
          rcases List.mem_cons.mp hc with hh | hh
          · subst hh; exact le_of_not_lt hgt
          · exact hall c hh hvc
        · right
          refine ⟨a :: l1, c, l2, by rw [hsplit, List.cons_append], hv, heq, hlt, ?_, hl2⟩
          intro c' hc' hv'
          rcases List.mem_cons.mp hc' with hh | hh
          · subst hh; exact lt_of_le_of_lt (le_of_not_lt hgt) hlt
          · exact hl1 c' hh hv'
    · have hstep : stepSplit ctx samples b a = b := by
        unfold stepSplit
        have hor : nLeft ctx samples a.1 a.2 = 0 ∨ nRight ctx samples a.1 a.2 = 0 := by
          unfold validCand at hval
          by_cases hc1 : nLeft ctx samples a.1 a.2 = 0
          · exact Or.inl hc1
          · by_cases hc2 : nRight ctx samples a.1 a.2 = 0
            · exact Or.inr hc2
            · exact absurd ⟨hc1, hc2⟩ hval
        rw [if_pos hor]
      rw [List.foldl_cons, hstep]
      rcases ih b with ⟨heq, hall⟩ | ⟨l1, c, l2, hsplit, hv, heq, hlt, hl1, hl2⟩
      · left
        refine ⟨heq, ?_⟩
        intro c hc hvc
        rcases List.mem_cons.mp hc with hh | hh
        · subst hh; exact absurd hvc hval
        · exact hall c hh hvc
      · right
        refine ⟨a :: l1, c, l2, by rw [hsplit, List.cons_append], hv, heq, hlt, ?_, hl2⟩
        intro c' hc' hv'
        rcases List.mem_cons.mp hc' with hh | hh
        · subst hh; exact absurd hv' hval
        · exact hl1 c' hh hv'

theorem nLeft_pos_exists (ctx : TreeCtx) (samples : List Nat) (v : Nat) (t : Rat)
    (h : nLeft ctx samples v t ≠ 0) : ∃ s ∈ samples, ctx.get s v ≤ t := by
  unfold nLeft at h
  have hne : samples.filter (fun s => decide (ctx.get s v ≤ t)) ≠ [] := by
    intro habs; rw [habs] at h; exact h rfl
  rcases List.exists_mem_of_ne_nil _ hne with ⟨s, hs⟩
  rcases List.mem_filter.mp hs with ⟨hmem, hpred⟩
  exact ⟨s, hmem, of_decide_eq_true hpred⟩

theorem nRight_pos_exists (ctx : TreeCtx) (samples : List Nat) (v : Nat) (t : Rat)
    (h : nRight ctx samples v t ≠ 0) : ∃ s ∈ samples, t < ctx.get s v := by
  unfold nRight at h
  have hne : samples.filter (fun s => decide (t < ctx.get s v)) ≠ [] := by
    intro habs; rw [habs] at h; exact h rfl
  rcases List.exists_mem_of_ne_nil _ hne with ⟨s, hs⟩
  rcases List.mem_filter.mp hs with ⟨hmem, hpred⟩
  exact ⟨s, hmem, of_decide_eq_true hpred⟩

/-- Purity helper: if the purity flag is set on a non-empty value list, the
stored pure value occurs in the list and has maximal count. -/
theorem pureCheck_cons (v : Rat) (vs : List Rat) :
    pureCheck (v :: vs) = (vs.all (fun x => decide (x = v)), v) := rfl

theorem pureCheck_true_spec (vals : List Rat) (h : vals ≠ [])
    (hp : (pureCheck vals).1 = true) :
    (pureCheck vals).2 ∈ vals ∧ ∀ c, vals.count c ≤ vals.count (pureCheck vals).2 := by
  rcases vals with _ | ⟨v, vs⟩
  · exact absurd rfl h
  · have hall : ∀ x ∈ vs, x = v := by
      intro x hx
      rw [pureCheck_cons] at hp
      have := (List.all_eq_true.mp hp) x hx
      exact of_decide_eq_true this
    rw [pureCheck_cons]
    constructor
    · exact List.mem_cons_self v vs
    · intro c
      have hcnt : (v :: vs).count v = (v :: vs).length := by
        rw [List.count_eq_length]
        intro b hb
        rcases List.mem_cons.mp hb with hh | hh
        · rw [hh]
        · rw [hall b hh]
      show (v :: vs).count c ≤ (v :: vs).count v
      rw [hcnt]
      exact List.count_le_length c (v :: vs)

theorem pureCheck_const (vals : List Rat) (c : Rat) (h : vals ≠ [])
    (hall : ∀ x ∈ vals, x = c) : pureCheck vals = (true, c) := by
  rcases vals with _ | ⟨v, vs⟩
  · exact absurd rfl h
  · have hv : v = c := hall v (List.mem_cons_self v vs)
    have hvs : vs.all (fun x => decide (x = v)) = true := by
      rw [List.all_eq_true]
      intro x hx
      have := hall x (List.mem_cons_of_mem v hx)
      exact decide_eq_true (by rw [this, hv])
    rw [pureCheck_cons, hvs, hv]

theorem responseValues_ne_nil (ctx : TreeCtx) (samples : List Nat) (h : samples ≠ []) :
    responseValues ctx samples ≠ [] := by
  unfold responseValues
  simp [h]

/-- The split/leaf decision of `splitNodeInternal`, with the importance
update projected away. -/
theorem splitNodeInternal_fst (ctx : TreeCtx) (samples vars : List Nat) (g : RNG)
    (importance : List Rat) :
    (splitNodeInternal ctx samples vars g importance).1 =
      if samples.length ≤ ctx.min_node_size then
        SplitResult.leaf (estimate ctx samples g).1 (estimate ctx samples g).2
      else if (pureCheck (responseValues ctx samples)).1 then
        SplitResult.leaf (pureCheck (responseValues ctx samples)).2 g
      else if (findBestSplit ctx samples vars).decrease < 0 then
        SplitResult.leaf (estimate ctx samples g).1 (estimate ctx samples g).2
      else
        SplitResult.split (findBestSplit ctx samples vars).varID
          (findBestSplit ctx samples vars).value g := by
  unfold splitNodeInternal
  split_ifs <;> rfl

/-! ### Claim theorems for the splitter -/

/-- C3: for every node and candidate variable set, `findBestSplit` evaluates
each non-empty-child candidate threshold with score
`(Σ_k L_k²)/|L| + (Σ_k R_k²)/|R|` and selects the candidate of maximal score,
the first-seen candidate winning on ties (a later candidate replaces the best
only when its score is strictly greater): whenever some valid candidate
exists, the returned best split is the first valid candidate in enumeration
order attaining the maximal score, stored together with that score. -/
theorem findBestSplit_first_seen_max (ctx : TreeCtx) (samples : List Nat) (vars : List Nat)
    (h : ∃ c ∈ candidatePairs ctx samples vars, validCand ctx samples c) :
    ∃ l1 c l2, candidatePairs ctx samples vars = l1 ++ c :: l2 ∧
      validCand ctx samples c ∧
      findBestSplit ctx samples vars = ⟨candScore ctx samples c, c.1, c.2⟩ ∧
      candScore ctx samples c =
        (sumLeft ctx samples c.1 c.2 : Rat) / (nLeft ctx samples c.1 c.2 : Rat) +
          (sumRight ctx samples c.1 c.2 : Rat) / (nRight ctx samples c.1 c.2 : Rat) ∧
      (∀ c' ∈ candidatePairs ctx samples vars, validCand ctx samples c' →
        candScore ctx samples c' ≤ candScore ctx samples c) ∧
      (∀ c' ∈ l1, validCand ctx samples c' →
        candScore ctx samples c' < candScore ctx samples c) := by
  rcases foldl_stepSplit_char ctx samples (candidatePairs ctx samples vars) ⟨-1, 0, 0⟩ with
    ⟨heq, hall⟩ | ⟨l1, c, l2, hsplit, hv, heq, hlt, hl1, hl2⟩
  · exfalso
    rcases h with ⟨c, hc, hvc⟩
    have h1 := hall c hc hvc
    have h2 := candScore_nonneg ctx samples c
    have h3 : (BestSplit.mk (-1) 0 0).decrease = -1 := rfl
    rw [h3] at h1
    linarith
  · refine ⟨l1, c, l2, hsplit, hv, heq, rfl, ?_, hl1⟩
    intro c' hc' hv'
    rw [hsplit] at hc'
    rcases List.mem_append.mp hc' with hh | hh
    · exact le_of_lt (hl1 c' hh hv')
    · rcases List.mem_cons.mp hh with hh2 | hh2
      · subst hh2; exact le_refl _
      · exact hl2 c' hh2 hv'

/-- Witness for C3 at a concrete input. -/
theorem findBestSplit_first_seen_max_witness :
    (∃ c ∈ candidatePairs exCtx [0, 1, 2, 3, 4, 5] [0], validCand exCtx [0, 1, 2, 3, 4, 5] c) ∧
    (∃ l1 c l2, candidatePairs exCtx [0, 1, 2, 3, 4, 5] [0] = l1 ++ c :: l2 ∧
      validCand exCtx [0, 1, 2, 3, 4, 5] c ∧
      findBestSplit exCtx [0, 1, 2, 3, 4, 5] [0] =
        ⟨candScore exCtx [0, 1, 2, 3, 4, 5] c, c.1, c.2⟩ ∧
      candScore exCtx [0, 1, 2, 3, 4, 5] c =
        (sumLeft exCtx [0, 1, 2, 3, 4, 5] c.1 c.2 : Rat) /
            (nLeft exCtx [0, 1, 2, 3, 4, 5] c.1 c.2 : Rat) +
          (sumRight exCtx [0, 1, 2, 3, 4, 5] c.1 c.2 : Rat) /
            (nRight exCtx [0, 1, 2, 3, 4, 5] c.1 c.2 : Rat) ∧
      (∀ c' ∈ candidatePairs exCtx [0, 1, 2, 3, 4, 5] [0], validCand exCtx [0, 1, 2, 3, 4, 5] c' →
        candScore exCtx [0, 1, 2, 3, 4, 5] c' ≤ candScore exCtx [0, 1, 2, 3, 4, 5] c) ∧
      (∀ c' ∈ l1, validCand exCtx [0, 1, 2, 3, 4, 5] c' →
        candScore exCtx [0, 1, 2, 3, 4, 5] c' < candScore exCtx [0, 1, 2, 3, 4, 5] c)) :=
  ⟨by with_unfolding_all decide,
    findBestSplit_first_seen_max exCtx [0, 1, 2, 3, 4, 5] [0] (by with_unfolding_all decide)⟩

/-- C4: every split materialized by `splitNodeInternal` has both children
non-empty: some sample of the node has value at most the stored threshold
and some sample has value strictly above it. -/
theorem materialized_split_children_nonempty (ctx : TreeCtx) (samples vars : List Nat)
    (g : RNG) (importance : List Rat) (varID : Nat) (value : Rat) (g' : RNG)
    (h : (splitNodeInternal ctx samples vars g importance).1 =
      SplitResult.split varID value g') :
    (∃ s ∈ samples, ctx.get s varID ≤ value) ∧ (∃ s ∈ samples, value < ctx.get s varID) := by
  rw [splitNodeInternal_fst] at h
  by_cases h1 : samples.length ≤ ctx.min_node_size
  · rw [if_pos h1] at h
    exact absurd h (by simp)
  · rw [if_neg h1] at h
    by_cases h2 : (pureCheck (responseValues ctx samples)).1 = true
    · rw [if_pos h2] at h
      exact absurd h (by simp)
    · rw [if_neg h2] at h
      by_cases h3 : (findBestSplit ctx samples vars).decrease < 0
      · rw [if_pos h3] at h
        exact absurd h (by simp)
      · rw [if_neg h3] at h
        rw [SplitResult.split.injEq] at h
        obtain ⟨hvar, hval, hg⟩ := h
        rcases foldl_stepSplit_char ctx samples (candidatePairs ctx samples vars) ⟨-1, 0, 0⟩ with
          ⟨heq, hall⟩ | ⟨l1, c, l2, hsplit, hv, heq, hlt, hl1, hl2⟩
        · exfalso
          have hbest : findBestSplit ctx samples vars = ⟨-1, 0, 0⟩ := heq
          rw [hbest] at h3
          exact h3 (by norm_num)
        · have hbest : findBestSplit ctx samples vars =
            ⟨candScore ctx samples c, c.1, c.2⟩ := heq
          have hc1 : c.1 = varID := by rw [← hvar, hbest]
          have hc2 : c.2 = value := by rw [← hval, hbest]
          rcases hv with ⟨hn1, hn2⟩
          rw [hc1, hc2] at hn1 hn2
          exact ⟨nLeft_pos_exists ctx samples varID value hn1,
                 nRight_pos_exists ctx samples varID value hn2⟩

/-- Witness for C4 at a concrete input. -/
theorem materialized_split_children_nonempty_witness :
    ((splitNodeInternal exCtx [0, 1, 2, 3, 4, 5] [0] ⟨0⟩ [0, 0]).1 =
      SplitResult.split 0 3 ⟨0⟩) ∧
    ((∃ s ∈ [0, 1, 2, 3, 4, 5], exCtx.get s 0 ≤ 3) ∧
      (∃ s ∈ [0, 1, 2, 3, 4, 5], (3 : Rat) < exCtx.get s 0)) :=
  ⟨by with_unfolding_all decide,
    materialized_split_children_nonempty exCtx [0, 1, 2, 3, 4, 5] [0] ⟨0⟩ [0, 0] 0 3 ⟨0⟩
      (by with_unfolding_all decide)⟩

/-- C5: a node all of whose samples share the same response value is finalized
as a leaf by `splitNodeInternal`, and its stored value is that shared
response value (on every path, including the `min_node_size`/estimate
path). -/
theorem pure_node_leaf_value (ctx : TreeCtx) (samples vars : List Nat) (g : RNG)
    (importance : List Rat) (c : Rat) (hs : samples ≠ [])
    (h : ∀ s ∈ samples, ctx.get s ctx.dependent_varID = c) :
    ∃ g', (splitNodeInternal ctx samples vars g importance).1 = SplitResult.leaf c g' := by
  have hall : ∀ x ∈ responseValues ctx samples, x = c := by
    intro x hx
    unfold responseValues at hx
    rcases List.mem_map.mp hx with ⟨s, hsmem, hxeq⟩
    rw [← hxeq]
    exact h s hsmem
  have hpure : pureCheck (responseValues ctx samples) = (true, c) :=
    pureCheck_const _ c (responseValues_ne_nil ctx samples hs) hall
  unfold splitNodeInternal
  split_ifs with h1 h2 h3
  · exact ⟨g, by rw [estimate_const ctx samples g c hs h]⟩
  · exact ⟨g, by rw [hpure]⟩
  · exfalso; rw [hpure] at h2; exact h2 rfl
  · exfalso; rw [hpure] at h2; exact h2 rfl

/-- Witness for C5 at a concrete input. -/
theorem pure_node_leaf_value_witness :
    ([0, 1, 2] ≠ ([] : List Nat)) ∧
    (∀ s ∈ [0, 1, 2], exCtx.get s exCtx.dependent_varID = 0) ∧
    (∃ g', (splitNodeInternal exCtx [0, 1, 2] [0] ⟨0⟩ [0, 0]).1 = SplitResult.leaf 0 g') :=
  ⟨by decide, by with_unfolding_all decide,
    pure_node_leaf_value exCtx [0, 1, 2] [0] ⟨0⟩ [0, 0] 0 (by decide)
      (by with_unfolding_all decide)⟩

/-- C6: a node whose sample count is at most `min_node_size` is finalized by
`splitNodeInternal` as a leaf whose stored value is a majority class among
the node's samples (the estimate, with ties broken via the tree RNG): the
stored value occurs among the node's response values and no response value
has a strictly larger occurrence count. -/
theorem small_node_leaf_estimate (ctx : TreeCtx) (samples vars : List Nat) (g : RNG)
    (importance : List Rat) (hs : samples ≠ [])
    (h : samples.length ≤ ctx.min_node_size) :
    ∃ v g', (splitNodeInternal ctx samples vars g importance).1 = SplitResult.leaf v g' ∧
      v ∈ responseValues ctx samples ∧
      ∀ c, (responseValues ctx samples).count c ≤ (responseValues ctx samples).count v := by
  have hm := estimate_majority ctx samples g hs
  refine ⟨(estimate ctx samples g).1, (estimate ctx samples g).2, ?_, hm.1, hm.2⟩
  unfold splitNodeInternal
  rw [if_pos h]

/-- Witness for C6 at a concrete input. -/
theorem small_node_leaf_estimate_witness :
    ([3] ≠ ([] : List Nat)) ∧ ([3].length ≤ exCtx.min_node_size) ∧
    (∃ v g', (splitNodeInternal exCtx [3] [0] ⟨0⟩ [0, 0]).1 = SplitResult.leaf v g' ∧
      v ∈ responseValues exCtx [3] ∧
      ∀ c, (responseValues exCtx [3]).count c ≤ (responseValues exCtx [3]).count v) :=
  ⟨by decide, by decide,
    small_node_leaf_estimate exCtx [3] [0] ⟨0⟩ [0, 0] (by decide) (by decide)⟩

/-- C7: when no valid split exists (every candidate variable has fewer than
two distinct values over the node's samples, or every candidate threshold
yields an empty child), `findBestSplit` reports no split (the initial best
with decrease `-1` survives) and `splitNodeInternal` recovers locally,
finalizing the node as a leaf carrying a majority-class estimate; no error is
propagated. -/
theorem no_valid_split_recovers_leaf (ctx : TreeCtx) (samples vars : List Nat) (g : RNG)
    (importance : List Rat) (hs : samples ≠ [])
    (h : ∀ v ∈ vars, (allValues ctx samples v).length < 2 ∨
      ∀ t ∈ allValues ctx samples v,
        nLeft ctx samples v t = 0 ∨ nRight ctx samples v t = 0) :
    findBestSplit ctx samples vars = ⟨-1, 0, 0⟩ ∧
      ∃ v g', (splitNodeInternal ctx samples vars g importance).1 = SplitResult.leaf v g' ∧
        v ∈ responseValues ctx samples ∧
        ∀ c, (responseValues ctx samples).count c ≤ (responseValues ctx samples).count v := by
  have hnone : ∀ c ∈ candidatePairs ctx samples vars, ¬ validCand ctx samples c := by
    intro c hc
    unfold candidatePairs at hc
    rcases List.mem_flatMap.mp hc with ⟨v, hvmem, hcv⟩
    by_cases hlen : (allValues ctx samples v).length < 2
    · rw [if_pos hlen] at hcv; cases hcv
    · rw [if_neg hlen] at hcv
      rcases List.mem_map.mp hcv with ⟨t, htmem, hteq⟩
      rcases h v hvmem with hcase | hcase
      · exact absurd hcase hlen
      · rcases hcase t htmem with hz | hz
        · intro hvc
          rcases hvc with ⟨k1, k2⟩
          rw [← hteq] at k1
          exact k1 hz
        · intro hvc
          rcases hvc with ⟨k1, k2⟩
          rw [← hteq] at k2
          exact k2 hz
  have hbest : findBestSplit ctx samples vars = ⟨-1, 0, 0⟩ := by
    rcases foldl_stepSplit_char ctx samples (candidatePairs ctx samples vars) ⟨-1, 0, 0⟩ with
      ⟨heq, hall⟩ | ⟨l1, c, l2, hsplit, hv, heq, hlt, hl1, hl2⟩
    · exact heq
    · exfalso
      have hcmem : c ∈ candidatePairs ctx samples vars := by
        rw [hsplit]
        exact List.mem_append.mpr (Or.inr (List.mem_cons_self c l2))
      exact hnone c hcmem hv
  refine ⟨hbest, ?_⟩
  unfold splitNodeInternal
  split_ifs with h1 h2 h3
  · have hm := estimate_majority ctx samples g hs
    exact ⟨(estimate ctx samples g).1, (estimate ctx samples g).2, rfl, hm.1, hm.2⟩
  · have hp := pureCheck_true_spec (responseValues ctx samples)
      (responseValues_ne_nil ctx samples hs) h2
    exact ⟨(pureCheck (responseValues ctx samples)).2, g, rfl, hp.1, hp.2⟩
  · have hm := estimate_majority ctx samples g hs
    exact ⟨(estimate ctx samples g).1, (estimate ctx samples g).2, rfl, hm.1, hm.2⟩
  · exfalso
    rw [hbest] at h3
    exact h3 (by norm_num)

/-- Witness for C7 at a concrete input (a non-pure node whose only candidate
variable is constant over the node). -/
theorem no_valid_split_recovers_leaf_witness :
    ([0, 3] ≠ ([] : List Nat)) ∧
    (∀ v ∈ [2], (allValues exCtx [0, 3] v).length < 2 ∨
      ∀ t ∈ allValues exCtx [0, 3] v,
        nLeft exCtx [0, 3] v t = 0 ∨ nRight exCtx [0, 3] v t = 0) ∧
    (findBestSplit exCtx [0, 3] [2] = ⟨-1, 0, 0⟩ ∧
      ∃ v g', (splitNodeInternal exCtx [0, 3] [2] ⟨0⟩ [0, 0]).1 = SplitResult.leaf v g' ∧
        v ∈ responseValues exCtx [0, 3] ∧
        ∀ c, (responseValues exCtx [0, 3]).count c ≤ (responseValues exCtx [0, 3]).count v) :=
  ⟨by decide, by with_unfolding_all decide,
    no_valid_split_recovers_leaf exCtx [0, 3] [2] ⟨0⟩ [0, 0] (by decide)
      (by with_unfolding_all decide)⟩

/-- C10: every leaf finalized by `splitNodeInternal` (by node size, purity, or
no valid split) stores a response value that actually occurs among that
node's samples. -/
theorem leaf_value_occurs_in_node (ctx : TreeCtx) (samples vars : List Nat) (g : RNG)
    (importance : List Rat) (v : Rat) (g' : RNG) (hs : samples ≠ [])
    (h : (splitNodeInternal ctx samples vars g importance).1 = SplitResult.leaf v g') :
    v ∈ responseValues ctx samples := by
  rw [splitNodeInternal_fst] at h
  by_cases h1 : samples.length ≤ ctx.min_node_size
  · rw [if_pos h1, SplitResult.leaf.injEq] at h
    rw [← h.1]
    exact (estimate_majority ctx samples g hs).1
  · rw [if_neg h1] at h
    by_cases h2 : (pureCheck (responseValues ctx samples)).1 = true
    · rw [if_pos h2, SplitResult.leaf.injEq] at h
      rw [← h.1]
      exact (pureCheck_true_spec _ (responseValues_ne_nil ctx samples hs) h2).1
    · rw [if_neg h2] at h
      by_cases h3 : (findBestSplit ctx samples vars).decrease < 0
      · rw [if_pos h3, SplitResult.leaf.injEq] at h
        rw [← h.1]
        exact (estimate_majority ctx samples g hs).1
      · rw [if_neg h3] at h
        exact absurd h (by simp)

/-- Witness for C10 at a concrete input. -/
theorem leaf_value_occurs_in_node_witness :
    ([4] ≠ ([] : List Nat)) ∧
    ((splitNodeInternal exCtx [4] [0] ⟨0⟩ [0, 0]).1 = SplitResult.leaf 1 ⟨0⟩) ∧
    ((1 : Rat) ∈ responseValues exCtx [4]) :=
  ⟨by decide, by with_unfolding_all decide,
    leaf_value_occurs_in_node exCtx [4] [0] ⟨0⟩ [0, 0] 1 ⟨0⟩ (by decide)
      (by with_unfolding_all decide)⟩


/-! ### Gini importance: index arithmetic -/

theorem countP_le_eq_countP_lt (ns : List Nat) (varID : Nat) (hnot : varID ∉ ns) :
    ns.countP (fun x => decide (x ≤ varID)) = ns.countP (fun x => decide (x < varID)) := by
  apply List.countP_congr
  intro x hx
  have hne : x ≠ varID := by
    intro he
    exact hnot (he ▸ hx)
  constructor
  · intro h1
    have := of_decide_eq_true h1
    exact decide_eq_true (by omega)
  · intro h1
    have := of_decide_eq_true h1
    exact decide_eq_true (by omega)

theorem countP_lt_nodup_le (ns : List Nat) (varID : Nat) (hnd : ns.Nodup) :
    ns.countP (fun x => decide (x < varID)) ≤ varID := by
  rw [List.countP_eq_length_filter]
  have hndf : (ns.filter (fun x => decide (x < varID))).Nodup := List.Nodup.filter _ hnd
  have hsub : (ns.filter (fun x => decide (x < varID))).toFinset ⊆ Finset.range varID := by
    intro x hx
    rw [List.mem_toFinset] at hx
    rcases List.mem_filter.mp hx with ⟨-, hpred⟩
    exact Finset.mem_range.mpr (of_decide_eq_true hpred)
  have hcard := Finset.card_le_card hsub
  rw [Finset.card_range] at hcard
  rw [← List.toFinset_card_of_nodup hndf]
  exact hcard

theorem foldl_decrement_eq (ns : List Nat) (varID : Nat) :
    ∀ t, ns.countP (fun x => decide (x ≤ varID)) ≤ t →
      ns.foldl (fun acc skip => if skip ≤ varID then acc - 1 else acc) t =
        t - ns.countP (fun x => decide (x ≤ varID)) := by
  induction ns with
  | nil => intro t h; simp
  | cons a ns ih =>
    intro t h
    by_cases ha : a ≤ varID
    · have hcount : (a :: ns).countP (fun x => decide (x ≤ varID)) =
        ns.countP (fun x => decide (x ≤ varID)) + 1 := by
        rw [List.countP_cons]
        simp [ha]
      rw [hcount] at h
      rw [List.foldl_cons, if_pos ha, hcount, ih (t - 1) (by omega)]
      omega
    · have hcount : (a :: ns).countP (fun x => decide (x ≤ varID)) =
        ns.countP (fun x => decide (x ≤ varID)) := by
        rw [List.countP_cons]
        simp [ha]
      rw [hcount] at h
      rw [List.foldl_cons, if_neg ha, hcount]
      exact ih t h

/-- Under the invariants of the caller (the no-split variables are distinct
and never chosen as split variables), the decrement loop of
`addGiniImportance` computes exactly `varID` minus the number of no-split
variables smaller than `varID`. -/
theorem tempVarID_eq (ctx : TreeCtx) (varID : Nat)
    (hnd : ctx.no_split_variables.Nodup)
    (hnot : varID ∉ ctx.no_split_variables) :
    tempVarID ctx varID =
      varID - ctx.no_split_variables.countP (fun x => decide (x < varID)) := by
  unfold tempVarID
  have hle := countP_le_eq_countP_lt ctx.no_split_variables varID hnot
  have hbound : ctx.no_split_variables.countP (fun x => decide (x ≤ varID)) ≤ varID := by
    rw [hle]
    exact countP_lt_nodup_le ctx.no_split_variables varID hnd
  rw [foldl_decrement_eq ctx.no_split_variables varID varID hbound, hle]

/-- C8: on a successful split under `IMP_GINI`, the importance vector is
updated by adding exactly `Δ − (Σ_k count_k²)/|samples(n)|` (with `Δ` the best
decrease of the chosen split) to the entry whose index is the chosen split
variable minus the number of no-split variables smaller than it. -/
theorem gini_importance_on_split (ctx : TreeCtx) (samples vars : List Nat) (g : RNG)
    (importance : List Rat)
    (hm : ctx.importance_mode = ImportanceMode.gini)
    (hbig : ¬ samples.length ≤ ctx.min_node_size)
    (hpure : ¬ (pureCheck (responseValues ctx samples)).1 = true)
    (hsplit : ¬ (findBestSplit ctx samples vars).decrease < 0)
    (hnd : ctx.no_split_variables.Nodup)
    (hnot : (findBestSplit ctx samples vars).varID ∉ ctx.no_split_variables) :
    (splitNodeInternal ctx samples vars g importance).2 =
      importance.set
        ((findBestSplit ctx samples vars).varID -
          ctx.no_split_variables.countP
            (fun x => decide (x < (findBestSplit ctx samples vars).varID)))
        (importance.getD
            ((findBestSplit ctx samples vars).varID -
              ctx.no_split_variables.countP
                (fun x => decide (x < (findBestSplit ctx samples vars).varID))) 0 +
          ((findBestSplit ctx samples vars).decrease -
            (sumNode ctx samples : Rat) / (samples.length : Rat))) := by
  unfold splitNodeInternal
  rw [if_neg hbig, if_neg hpure, if_neg hsplit]
  show (if ctx.importance_mode = ImportanceMode.gini then
      addGiniImportance ctx samples (findBestSplit ctx samples vars).varID
        (findBestSplit ctx samples vars).decrease importance
    else importance) = _
  rw [if_pos hm]
  unfold addGiniImportance
  rw [tempVarID_eq ctx (findBestSplit ctx samples vars).varID hnd hnot]

/-- Witness for C8 at a concrete input. -/
theorem gini_importance_on_split_witness :
    (exCtx.importance_mode = ImportanceMode.gini) ∧
    (¬ ([0, 1, 2, 3, 4, 5] : List Nat).length ≤ exCtx.min_node_size) ∧
    (¬ (pureCheck (responseValues exCtx [0, 1, 2, 3, 4, 5])).1 = true) ∧
    (¬ (findBestSplit exCtx [0, 1, 2, 3, 4, 5] [0]).decrease < 0) ∧
    (exCtx.no_split_variables.Nodup) ∧
    ((findBestSplit exCtx [0, 1, 2, 3, 4, 5] [0]).varID ∉ exCtx.no_split_variables) ∧
    ((splitNodeInternal exCtx [0, 1, 2, 3, 4, 5] [0] ⟨0⟩ [0, 0]).2 =
      ([0, 0] : List Rat).set
        ((findBestSplit exCtx [0, 1, 2, 3, 4, 5] [0]).varID -
          exCtx.no_split_variables.countP
            (fun x => decide (x < (findBestSplit exCtx [0, 1, 2, 3, 4, 5] [0]).varID)))
        (([0, 0] : List Rat).getD
            ((findBestSplit exCtx [0, 1, 2, 3, 4, 5] [0]).varID -
              exCtx.no_split_variables.countP
                (fun x => decide (x < (findBestSplit exCtx [0, 1, 2, 3, 4, 5] [0]).varID))) 0 +
          ((findBestSplit exCtx [0, 1, 2, 3, 4, 5] [0]).decrease -
            (sumNode exCtx [0, 1, 2, 3, 4, 5] : Rat) /
              (([0, 1, 2, 3, 4, 5] : List Nat).length : Rat)))) :=
  ⟨rfl, by decide, by with_unfolding_all decide, by with_unfolding_all decide,
    by decide, by with_unfolding_all decide,
    gini_importance_on_split exCtx [0, 1, 2, 3, 4, 5] [0] ⟨0⟩ [0, 0] rfl (by decide)
      (by with_unfolding_all decide) (by with_unfolding_all decide) (by decide)
      (by with_unfolding_all decide)⟩

/-! ### Forest persistence -/

/-- C9: `loadFromFileInternal` raises an error exactly when the stored
tree-type tag is not the classification tag; on success it returns the stored
class values and the stored trees with child links and split values
unchanged, while a stored split-variable ID is decremented (by one, modulo
the `size_t` width) exactly when the saved variable count strictly exceeds
the current one and the ID is at least the dependent variable index; the
decrement is an ordinary decrement by one on every representable positive
ID. -/
theorem loadFromFileInternal_spec (sf : SavedForest) (nv d : Nat) :
    ((∃ msg, loadFromFileInternal sf nv d = Except.error msg) ↔
      sf.treetype ≠ TREE_CLASSIFICATION) ∧
    (∀ cvs ts, loadFromFileInternal sf nv d = Except.ok (cvs, ts) →
      cvs = sf.class_values ∧ ts.length = sf.trees.length ∧
      ∀ (i : Nat) (t0 : SavedTree), sf.trees[i]? = some t0 →
        ∃ t1 : SavedTree, ts[i]? = some t1 ∧
          t1.child_nodeIDs = t0.child_nodeIDs ∧
          t1.split_values = t0.split_values ∧
          t1.split_varIDs.length = t0.split_varIDs.length ∧
          ∀ (j v : Nat), t0.split_varIDs[j]? = some v →
            t1.split_varIDs[j]? =
              some (if sf.num_variables_saved > nv ∧ v ≥ d then decOne v else v)) ∧
    (∀ v, 1 ≤ v → v < 2 ^ 64 → decOne v = v - 1) := by
  by_cases htag : sf.treetype = TREE_CLASSIFICATION
  · have hok : loadFromFileInternal sf nv d =
      Except.ok (sf.class_values, sf.trees.map (reconcileTree sf.num_variables_saved nv d)) := by
      unfold loadFromFileInternal
      rw [if_neg (by simp [htag])]
    refine ⟨?_, ?_, ?_⟩
    · constructor
      · rintro ⟨msg, hmsg⟩
        rw [hok] at hmsg
        cases hmsg
      · intro hne
        exact absurd htag hne
    · intro cvs ts hts
      rw [hok] at hts
      rw [Except.ok.injEq, Prod.mk.injEq] at hts
      obtain ⟨hcvs, hmap⟩ := hts
      refine ⟨hcvs.symm, ?_, ?_⟩
      · rw [← hmap, List.length_map]
      · intro i t0 h0
        rw [← hmap]
        refine ⟨reconcileTree sf.num_variables_saved nv d t0, ?_, ?_, ?_, ?_, ?_⟩
        · rw [List.getElem?_map, h0, Option.map_some']
        · unfold reconcileTree
          split_ifs <;> rfl
        · unfold reconcileTree
          split_ifs <;> rfl
        · unfold reconcileTree
          split_ifs
          · show (t0.split_varIDs.map _).length = _
            rw [List.length_map]
          · rfl
        · intro j v hj
          unfold reconcileTree
          by_cases hgt : sf.num_variables_saved > nv
          · rw [if_pos hgt]
            show (t0.split_varIDs.map (fun v => if v ≥ d then decOne v else v))[j]? = _
            rw [List.getElem?_map, hj, Option.map_some']
            by_cases hv : v ≥ d
            · rw [if_pos hv, if_pos ⟨hgt, hv⟩]
            · rw [if_neg hv, if_neg (fun hc => hv hc.2)]
          · rw [if_neg hgt, hj, if_neg (fun hc => hgt hc.1)]
    · intro v h1 h2
      unfold decOne
      omega
  · have herr : loadFromFileInternal sf nv d =
      Except.error "Wrong treetype. Loaded file is not a classification forest." := by
      unfold loadFromFileInternal
      rw [if_pos htag]
    refine ⟨?_, ?_, ?_⟩
    · constructor
      · intro _
        exact htag
      · intro _
        exact ⟨_, herr⟩
    · intro cvs ts hts
      rw [herr] at hts
      cases hts
    · intro v h1 h2
      unfold decOne
      omega

/-- Witness for C9 at a concrete input. -/
theorem loadFromFileInternal_spec_witness :
    ((∃ msg, loadFromFileInternal sfEx 2 1 = Except.error msg) ↔
      sfEx.treetype ≠ TREE_CLASSIFICATION) ∧
    (∀ cvs ts, loadFromFileInternal sfEx 2 1 = Except.ok (cvs, ts) →
      cvs = sfEx.class_values ∧ ts.length = sfEx.trees.length ∧
      ∀ (i : Nat) (t0 : SavedTree), sfEx.trees[i]? = some t0 →
        ∃ t1 : SavedTree, ts[i]? = some t1 ∧
          t1.child_nodeIDs = t0.child_nodeIDs ∧
          t1.split_values = t0.split_values ∧
          t1.split_varIDs.length = t0.split_varIDs.length ∧
          ∀ (j v : Nat), t0.split_varIDs[j]? = some v →
            t1.split_varIDs[j]? =
              some (if sfEx.num_variables_saved > 2 ∧ v ≥ 1 then decOne v else v)) ∧
    (∀ v, 1 ≤ v → v < 2 ^ 64 → decOne v = v - 1) :=
  loadFromFileInternal_spec sfEx 2 1

/-! ### OOB evaluation -/

theorem getD_append_length {α : Type} (l : List α) (x d : α) :
    (l ++ [x]).getD l.length d = x := by
  rw [List.getD_eq_getElem?_getD, List.getElem?_concat_length]
  rfl

theorem oobStep_length (inp : EvalInput) (acc : List (Option Rat) × RNG) (a : Nat) :
    (oobStep inp acc a).1.length = acc.1.length + 1 := by
  unfold oobStep
  split_ifs <;> simp

theorem oobFold_length (inp : EvalInput) :
    ∀ (l : List Nat) (acc : List (Option Rat) × RNG),
      ((l.foldl (oobStep inp) acc).1).length = acc.1.length + l.length := by
  intro l
  induction l with
  | nil => intro acc; simp
  | cons a l ih =>
    intro acc
    rw [List.foldl_cons, ih (oobStep inp acc a), oobStep_length]
    simp
    omega

theorem oobFold_prefix (inp : EvalInput) :
    ∀ (l : List Nat) (acc : List (Option Rat) × RNG) (j : Nat), j < acc.1.length →
      (l.foldl (oobStep inp) acc).1.getD j none = acc.1.getD j none := by
  intro l
  induction l with
  | nil => intro acc j hj; rfl
  | cons a l ih =>
    intro acc j hj
    rw [List.foldl_cons]
    have hstep1 : (oobStep inp acc a).1.getD j none = acc.1.getD j none := by
      unfold oobStep
      split_ifs <;> exact List.getD_append _ _ _ _ hj
    have hlen : j < (oobStep inp acc a).1.length := by
      rw [oobStep_length]
      omega
    rw [ih (oobStep inp acc a) j hlen, hstep1]

theorem oobFold_elem (inp : EvalInput) :
    ∀ (l : List Nat) (acc : List (Option Rat) × RNG) (k : Nat), k < l.length →
      ((l.foldl (oobStep inp) acc).1.getD (acc.1.length + k) none = none ↔
        oobVotes inp.trees (l.getD k 0) = []) := by
  intro l
  induction l with
  | nil => intro acc k hk; exact absurd hk (Nat.not_lt_zero k)
  | cons a l ih =>
    intro acc k hk
    rcases k with _ | k
    · rw [List.foldl_cons, Nat.add_zero]
      have hpre := oobFold_prefix inp l (oobStep inp acc a) acc.1.length
        (by rw [oobStep_length]; omega)
      rw [hpre]
      have hgd : (a :: l).getD 0 0 = a := rfl
      rw [hgd]
      unfold oobStep
      by_cases hv : oobVotes inp.trees a = []
      · rw [if_pos hv]
        constructor
        · intro _; exact hv
        · intro _
          show (acc.1 ++ [none]).getD acc.1.length none = none
          rw [getD_append_length]
      · rw [if_neg hv]
        constructor
        · intro habs
          exfalso
          have : (acc.1 ++
              [some (mostFrequentValue (classCount (oobVotes inp.trees a)) acc.2).1]).getD
              acc.1.length none =
              some (mostFrequentValue (classCount (oobVotes inp.trees a)) acc.2).1 :=
            getD_append_length _ _ _
          rw [this] at habs
          cases habs
        · intro habs
          exact absurd habs hv
    · rw [List.foldl_cons]
      have hk' : k < l.length := by
        simp at hk
        omega
      have := ih (oobStep inp acc a) k hk'
      rw [oobStep_length] at this
      have harr : acc.1.length + (k + 1) = acc.1.length + 1 + k := by omega
      rw [harr, this]
      have hgd : (a :: l).getD (k + 1) 0 = l.getD k 0 := rfl
      rw [hgd]

theorem oobPredictions_length (inp : EvalInput) (g : RNG) :
    (oobPredictions inp g).1.length = inp.num_samples := by
  unfold oobPredictions
  rw [oobFold_length]
  simp

theorem oobPredictions_none_iff (inp : EvalInput) (g : RNG) (i : Nat)
    (hi : i < inp.num_samples) :
    ((oobPredictions inp g).1.getD i none = none ↔ oobVotes inp.trees i = []) := by
  unfold oobPredictions
  have h := oobFold_elem inp (List.range inp.num_samples) ([], g) i (by simpa using hi)
  simp only [List.length_nil, Nat.zero_add] at h
  have hr : (List.range inp.num_samples).getD i 0 = i := by
    rw [List.getD_eq_getElem?_getD, List.getElem?_range hi]
    rfl
  rw [hr] at h
  exact h

theorem numMiss_eq_spec (inp : EvalInput) (g : RNG) :
    numMissclassifications inp (oobPredictions inp g).1 =
      specNumMisclassifiedDefined inp (oobPredictions inp g).1 := by
  unfold numMissclassifications specNumMisclassifiedDefined
  rw [oobPredictions_length inp g]
  apply List.countP_congr
  intro i hi
  have hi' : i < inp.num_samples := List.mem_range.mp hi
  have hiff := oobPredictions_none_iff inp g i hi'
  rcases hcase : (oobPredictions inp g).1.getD i none with _ | v
  · have hv : oobVotes inp.trees i = [] := hiff.mp hcase
    simp [hcase, hv]
  · have hv : oobVotes inp.trees i ≠ [] := by
      intro habs
      have := hiff.mpr habs
      rw [hcase] at this
      cases this
    simp [hcase, hv]

theorem confusion_eq_spec (inp : EvalInput) (g : RNG) (rv pv : Rat) :
    classificationTable inp (oobPredictions inp g).1 (rv, pv) =
      (List.range inp.num_samples).countP (fun i =>
        decide (oobVotes inp.trees i ≠ []) &&
        (decide ((oobPredictions inp g).1.getD i none = some pv) &&
          decide (inp.real i = rv))) := by
  unfold classificationTable
  rw [oobPredictions_length inp g]
  apply List.countP_congr
  intro i hi
  have hi' : i < inp.num_samples := List.mem_range.mp hi
  have hiff := oobPredictions_none_iff inp g i hi'
  rcases hcase : (oobPredictions inp g).1.getD i none with _ | v
  · simp [hcase]
  · have hv : oobVotes inp.trees i ≠ [] := by
      intro habs
      have := hiff.mpr habs
      rw [hcase] at this
      cases this
    simp [hcase, hv]

/-- C1 counterexample: on an input where sample 0 has one wrong OOB vote and
sample 1 has no OOB vote at all, the overall prediction error computed by the
code (`1/2`: the divisor is `predictions.size()`) differs from the claim's
`(# misclassified defined) / (# defined)` (`1/1`). -/
theorem oob_error_denominator_counterexample :
    (computePredictionErrorInternal exEval ⟨0⟩).error ≠
      (specNumMisclassifiedDefined exEval
          (computePredictionErrorInternal exEval ⟨0⟩).predictions : Rat) /
        (specNumDefined exEval : Rat) := by
  with_unfolding_all decide

/-- C1 (amended): the overall OOB prediction error computed by
`computePredictionErrorInternal` equals the number of misclassified defined
samples (samples with at least one OOB vote) divided by the TOTAL number of
samples (`predictions.size()`, i.e. `num_samples`), and the confusion matrix
counts only defined samples. -/
theorem oob_error_total_denominator (inp : EvalInput) (g : RNG) :
    (computePredictionErrorInternal inp g).error =
      (specNumMisclassifiedDefined inp
          (computePredictionErrorInternal inp g).predictions : Rat) /
        (inp.num_samples : Rat) ∧
    ∀ rv pv, (computePredictionErrorInternal inp g).confusion (rv, pv) =
      (List.range inp.num_samples).countP (fun i =>
        decide (oobVotes inp.trees i ≠ []) &&
        (decide ((computePredictionErrorInternal inp g).predictions.getD i none = some pv) &&
          decide (inp.real i = rv))) := by
  constructor
  · show (numMissclassifications inp (oobPredictions inp g).1 : Rat) /
      ((oobPredictions inp g).1.length : Rat) = _
    rw [oobPredictions_length inp g, numMiss_eq_spec inp g]
    rfl
  · intro rv pv
    show classificationTable inp (oobPredictions inp g).1 (rv, pv) = _
    rw [confusion_eq_spec inp g rv pv]
    rfl

/-! ### Determinism -/

/-- C2: for every dataset, seed and configuration, two independent runs of
forest growth and evaluation produce identical trees, OOB sets, importance,
OOB predictions, confusion, error and majority predictions (all RNG use,
including the majority-vote tie-breaks in prediction and OOB evaluation, is a
deterministic function of the seed). -/
theorem forest_growth_deterministic (d1 d2 : DataM) (s1 s2 : Nat) (c1 c2 : Config)
    (hd : d1 = d2) (hs : s1 = s2) (hc : c1 = c2) :
    growForest d1 s1 c1 = growForest d2 s2 c2 := by
  subst hd
  subst hs
  subst hc
  rfl

/-- Witness for C2 at a concrete input. -/
theorem forest_growth_deterministic_witness :
    exData = exData ∧ (42 : Nat) = 42 ∧ exCfg = exCfg ∧
    growForest exData 42 exCfg = growForest exData 42 exCfg :=
  ⟨rfl, rfl, rfl, forest_growth_deterministic exData exData 42 42 exCfg exCfg rfl rfl rfl⟩
